import Mathlib

/-!
Verification of the key-bundle lifecycle and synchronization engine of the
cryptojwt repository.  The repository source available here is
src/src/cryptojwt/jwk/asym.py (the asymmetric-key usage-resolution facade)
together with the key-bundle test suite; the key_bundle module itself is not
part of the source tree, so its data model and operations are modelled from
the specification (each such definition says so in its doc comment) and are
kept consistent with the behaviour pinned down by the test suite.
Machine integers do not occur: all counts and timestamps are natural numbers.
-/

namespace CryptoJwt

/-- Modelled from the spec: one cryptographic key held by a KeyBundle.
Fields kty (type tag), use (sig or enc, empty when unset), kid, crv
(curve, empty for non-EC), size (modulus size or byte count), material
(abstract stand-in for the public/private key material), hasPriv (whether
private material is present) and inactive_since (timestamp, present exactly
when the key is inactive). -/
structure Key where
  kty : String
  use : String := ""
  kid : String := ""
  crv : String := ""
  size : Nat := 0
  material : Nat := 0
  hasPriv : Bool := true
  inactive_since : Option Nat := none
deriving DecidableEq, Repr

/-- Modelled from the spec: a raw key descriptor as found in a JWK-Set
document, before the registry turns it into a typed Key. -/
structure Descriptor where
  kty : String
  use : String := ""
  kid : String := ""
  crv : String := ""
  size : Nat := 0
  material : Nat := 0
  hasPriv : Bool := true
deriving DecidableEq, Repr

/-- Key is active iff inactive_since is absent. -/
def Key.isActive (k : Key) : Bool :=
  k.inactive_since.isNone

/-- Mark a key inactive as of time now. -/
def Key.markInactive (now : Nat) (k : Key) : Key :=
  { k with inactive_since := some now }

/-- ASCII lower-casing of one character. -/
def lowerChar (c : Char) : Char :=
  if 65 ≤ c.toNat && c.toNat ≤ 90 then Char.ofNat (c.toNat + 32) else c

/-- ASCII lower-casing of a string, as a character list. -/
def lowerStr (s : String) : List Char :=
  s.data.map lowerChar

/-- Case-insensitive string comparison. -/
def strIEq (a b : String) : Bool :=
  lowerStr a == lowerStr b

/-- Modelled from the spec: the key-type registry recognizes the type tags
RSA, EC and oct (case-insensitively); every other tag, such as OKP, is
unrecognized and silently skipped during ingestion. -/
def recognizedKty (t : String) : Bool :=
  strIEq t "rsa" || strIEq t "ec" || strIEq t "oct"

/-- Modelled from the spec: build a typed Key from a raw descriptor through
the registry; descriptors with an unrecognized type tag yield none and are
silently dropped.  A freshly built key is active. -/
def buildKey (d : Descriptor) : Option Key :=
  if recognizedKty d.kty then
    some { kty := d.kty, use := d.use, kid := d.kid, crv := d.crv,
           size := d.size, material := d.material, hasPriv := d.hasPriv,
           inactive_since := none }
  else none

/-- Modelled from the spec: material equality used by the merge step.  Two
keys match when they have the same type and the same key material (the use
facet, curve and size are part of the compared content; the kid and the
activity timestamp are not). -/
def sameKey (a b : Key) : Bool :=
  a.kty == b.kty && a.use == b.use && a.crv == b.crv &&
    a.size == b.size && a.material == b.material

/-- Modelled from the spec: the KeyBundle engine state: the owned key list,
the source descriptor (source, remote and local flags, fileformat), the
cache metadata (cache_time, time_out, last_updated, last_remote,
last_local, imp_jwks) and the pluggable fetch parameters (httpc_params,
modelled opaquely as string-number pairs). -/
structure KeyBundle where
  keys : List Key := []
  source : Option String := none
  remote : Bool := false
  «local» : Bool := false
  fileformat : String := "jwks"
  cache_time : Nat := 300
  time_out : Nat := 0
  last_updated : Nat := 0
  last_remote : Option String := none
  last_local : Option Nat := none
  imp_jwks : Option String := none
  httpc_params : List (String × Nat) := []
deriving DecidableEq, Repr

/-- Modelled from the spec: does a key satisfy a (case-insensitive) type
filter; the empty filter matches every type. -/
def typeMatch (typ : String) (k : Key) : Bool :=
  typ == "" || strIEq typ k.kty

/-- Modelled from the spec: the get query, filtering the held keys by type
(case-insensitively; empty filter keeps all types) and, unless only_active
is false, keeping only active keys. -/
def KeyBundle.get (b : KeyBundle) (typ : String := "")
    (only_active : Bool := true) : List Key :=
  b.keys.filter (fun k => typeMatch typ k && (!only_active || k.isActive))

/-- Modelled from the spec: the all-types active-only query shorthand. -/
def KeyBundle.active_keys (b : KeyBundle) : List Key :=
  b.keys.filter Key.isActive

/-- Modelled from the spec: look a key up by its kid; a miss yields none. -/
def KeyBundle.get_key_with_kid (b : KeyBundle) (kid : String) : Option Key :=
  b.keys.find? (fun k => k.kid == kid)

/-- Modelled from the spec: the treatment of one held key during the merge
step do_keys.  A held key matching an incoming entry by material equality
is left untouched; a previously active held key matching no incoming entry
is flipped to inactive with inactive_since set to now; an already inactive
key matching no incoming entry keeps its inactivity timestamp.  No held key
is ever deleted. -/
def mergeOne (now : Nat) (incoming : List Key) (k : Key) : Key :=
  if incoming.any (fun j => sameKey k j) then k
  else if k.inactive_since.isNone then Key.markInactive now k
  else k

/-- Modelled from the spec: the merge result list: the held keys passed
through mergeOne against the incoming typed keys, followed by the incoming
keys matching no held key, appended as new active entries. -/
def do_keys (now : Nat) (ks : List Key) (descs : List Descriptor) : List Key :=
  let incoming := descs.filterMap buildKey
  ks.map (mergeOne now incoming)
    ++ incoming.filter (fun j => !(ks.any (fun k => sameKey k j)))

/-- Modelled from the spec: ingest a list of raw descriptors into a fresh
bundle (the inline construction mode of KeyBundle). -/
def KeyBundle.ofDescs (descs : List Descriptor) : KeyBundle :=
  { keys := do_keys 0 [] descs }

/-- Modelled from the spec: the outcome of one conditional fetch through the
pluggable fetch capability.  A fresh-content response carries the new
revalidation token, an optional caching hint and the body, which is none
when the body fails to parse as a JWK-Set; a not-modified response carries
only the caching hint; failure is a transport-level failure. -/
inductive FetchResult where
  | fresh (validator : Option String) (cacheHint : Option Nat)
      (body : Option (List Descriptor))
  | notModified (cacheHint : Option Nat)
  | failure
deriving DecidableEq, Repr

/-- Modelled from the spec: the default remote cache interval used when a
response carries no caching hint. -/
def default_cache_time : Nat := 300

/-- Modelled from the spec: the remote branch of the refresh engine.  On a
fresh-content response with a parseable body the body is merged through
do_keys, last_remote is taken from the response validator and time_out is
recomputed from the caching hint; on a not-modified response only time_out
is recomputed; on a transport failure, or when the body fails to parse, the
bundle is returned completely unchanged together with the boolean false
(the failure is never raised: the function is total and always returns). -/
def do_remote (now : Nat) (b : KeyBundle) (resp : FetchResult) :
    KeyBundle × Bool :=
  match resp with
  | .failure => (b, false)
  | .fresh validator cacheHint body =>
      match body with
      | none => (b, false)
      | some descs =>
          ({ b with keys := do_keys now b.keys descs,
                    last_remote := validator,
                    last_updated := now,
                    time_out := now + cacheHint.getD default_cache_time },
           true)
  | .notModified cacheHint =>
      ({ b with time_out := now + cacheHint.getD default_cache_time }, true)

/-- Modelled from the spec: the update refresh entry point, restricted to
the source kinds the claims exercise: with no source it is a no-op
returning true; on a remote source whose time_out has expired it performs
the conditional fetch (whose outcome is passed in as resp) through
do_remote; on a remote source whose cache is still valid it is a no-op
returning true.  The local-file branch is not modelled (no claim depends on
it). -/
def KeyBundle.update (now : Nat) (b : KeyBundle) (resp : FetchResult) :
    KeyBundle × Bool :=
  match b.source with
  | none => (b, true)
  | some _ =>
      if b.remote then
        if b.time_out ≤ now then do_remote now b resp
        else (b, true)
      else (b, true)

/-- Modelled from the spec: one key rendered into a JWK-Set document.  The
priv flag records whether the private fields were included. -/
structure SerJWK where
  kty : String
  use : String
  kid : String
  material : Nat
  priv : Bool
deriving DecidableEq, Repr

/-- Modelled from the spec: serialize one key; private fields are included
only when explicitly requested and present. -/
def serializeKey (priv : Bool) (k : Key) : SerJWK :=
  { kty := k.kty, use := k.use, kid := k.kid, material := k.material,
    priv := priv && k.hasPriv }

/-- Modelled from the spec and the test suite: the jwks renderer of one
bundle.  It renders the active keys (of every type, symmetric keys
included: the test suite shows a bundle holding a single symmetric key
renders that key) and excludes private fields unless explicitly
requested. -/
def KeyBundle.jwks (b : KeyBundle) (priv : Bool := false) : List SerJWK :=
  b.active_keys.map (serializeKey priv)

/-- Modelled from the spec and the test suite: the dump_jwks module
function, which renders the active keys of a list of bundles into one
JWK-Set document; symmetric (oct) keys are excluded unless symmetric_too is
set, and private fields are excluded unless requested. -/
def dump_jwks (kbl : List KeyBundle) (priv : Bool := false)
    (symmetric_too : Bool := false) : List SerJWK :=
  kbl.flatMap (fun kb =>
    if symmetric_too then kb.active_keys.map (serializeKey priv)
    else (kb.active_keys.filter (fun k => k.kty != "oct")).map
      (serializeKey priv))

/-- Modelled from the spec: one value of the persisted-state mapping. -/
inductive DumpVal where
  | nat (v : Nat)
  | str (v : String)
  | ostr (v : Option String)
  | onat (v : Option Nat)
  | boolean (v : Bool)
  | keyList (v : List Key)
  | params (v : List (String × Nat))
deriving DecidableEq, Repr

/-- Modelled from the spec and the test suite: dump serializes the whole
observable bundle state to a plain mapping (modelled as an association
list).  The schema fields cache_time, fileformat, httpc_params, imp_jwks,
keys, last_updated, last_remote, last_local, remote, local and time_out are
always present and every serialized key carries its inactive_since; the
source locator is additionally emitted when the bundle has one, since load
must be able to restore the source configuration (the restoration is
asserted by the test suite). -/
def KeyBundle.dump (b : KeyBundle) : List (String × DumpVal) :=
  [("cache_time", DumpVal.nat b.cache_time),
   ("fileformat", DumpVal.str b.fileformat),
   ("httpc_params", DumpVal.params b.httpc_params),
   ("imp_jwks", DumpVal.ostr b.imp_jwks),
   ("keys", DumpVal.keyList b.keys),
   ("last_updated", DumpVal.nat b.last_updated),
   ("last_remote", DumpVal.ostr b.last_remote),
   ("last_local", DumpVal.onat b.last_local),
   ("remote", DumpVal.boolean b.remote),
   ("local", DumpVal.boolean b.«local»),
   ("time_out", DumpVal.nat b.time_out)]
  ++ (match b.source with
      | some s => [("source", DumpVal.str s)]
      | none => [])

/-- Look a field up in a persisted-state mapping. -/
def lookupVal (st : List (String × DumpVal)) (f : String) : Option DumpVal :=
  (st.find? (fun e => e.1 == f)).map (fun e => e.2)

/-- Modelled from the spec: load restores a bundle from a persisted-state
mapping, with no fetching of any kind; fields absent from the mapping keep
the receiving bundle defaults. -/
def KeyBundle.load (b : KeyBundle) (st : List (String × DumpVal)) :
    KeyBundle :=
  { keys := match lookupVal st "keys" with
      | some (DumpVal.keyList v) => v
      | _ => b.keys,
    source := match lookupVal st "source" with
      | some (DumpVal.str s) => some s
      | _ => b.source,
    remote := match lookupVal st "remote" with
      | some (DumpVal.boolean v) => v
      | _ => b.remote,
    «local» := match lookupVal st "local" with
      | some (DumpVal.boolean v) => v
      | _ => b.«local»,
    fileformat := match lookupVal st "fileformat" with
      | some (DumpVal.str v) => v
      | _ => b.fileformat,
    cache_time := match lookupVal st "cache_time" with
      | some (DumpVal.nat v) => v
      | _ => b.cache_time,
    time_out := match lookupVal st "time_out" with
      | some (DumpVal.nat v) => v
      | _ => b.time_out,
    last_updated := match lookupVal st "last_updated" with
      | some (DumpVal.nat v) => v
      | _ => b.last_updated,
    last_remote := match lookupVal st "last_remote" with
      | some (DumpVal.ostr v) => v
      | _ => b.last_remote,
    last_local := match lookupVal st "last_local" with
      | some (DumpVal.onat v) => v
      | _ => b.last_local,
    imp_jwks := match lookupVal st "imp_jwks" with
      | some (DumpVal.ostr v) => v
      | _ => b.imp_jwks,
    httpc_params := match lookupVal st "httpc_params" with
      | some (DumpVal.params v) => v
      | _ => b.httpc_params }

/-- Modelled from the spec: a declarative key specification entry, with a
type tag, a curve (for EC), a size or byte count, a use facet and an
optional kid. -/
structure KeySpec where
  type : String
  crv : String := ""
  size : Nat := 0
  use : String := ""
  kid : String := ""
deriving DecidableEq, Repr

/-- Modelled from the spec: the grouping signature of a key, built from its
type and its curve-or-size. -/
def Key.sig (k : Key) : String :=
  k.kty ++ ":" ++ k.crv ++ ":" ++ toString k.size

/-- Modelled from the spec: the grouping signature of a specification
entry, matching the signature of the keys it describes. -/
def KeySpec.sig (s : KeySpec) : String :=
  s.type ++ ":" ++ s.crv ++ ":" ++ toString s.size

/-- Modelled from the spec: the specification entry describing a key, used
by key_rollover to rebuild a bundle matching the same specs. -/
def specOfKey (k : Key) : KeySpec :=
  { type := k.kty, crv := k.crv, size := k.size, use := k.use }

/-- Modelled from the spec: generate one fresh active key from a
specification entry; the material argument is the fresh key material. -/
def key_gen (s : KeySpec) (material : Nat) : Key :=
  { kty := s.type, use := s.use, kid := s.kid, crv := s.crv, size := s.size,
    material := material, hasPriv := true, inactive_since := none }

/-- Modelled from the spec: generate one fresh key per specification entry,
with pairwise distinct materials drawn from seed upward. -/
def genKeys : List KeySpec → Nat → List Key
  | [], _ => []
  | s :: ss, seed => key_gen s seed :: genKeys ss (seed + 1)

/-- Modelled from the spec: build_key_bundle constructs a new bundle from a
list of key specs, generating one fresh key per spec entry. -/
def build_key_bundle (key_conf : List KeySpec) (seed : Nat := 0) :
    KeyBundle :=
  { keys := genKeys key_conf seed }

/-- Remove the first list element satisfying a predicate, returning it and
the remaining elements, or none when no element satisfies it. -/
def pluck (p : Key → Bool) : List Key → Option (Key × List Key)
  | [] => none
  | k :: ks =>
      if p k then some (k, ks)
      else (pluck p ks).map (fun r => (r.1, k :: r.2))

/-- Modelled from the spec: match specification entries against keys by
grouping signature, one key per matched entry.  Returns the unmatched
entries (to be generated), the matched keys (kept) and the leftover keys
(to be scheduled for deletion). -/
def matchSpecs : List KeySpec → List Key →
    List KeySpec × List Key × List Key
  | [], ks => ([], [], ks)
  | s :: ss, ks =>
      match pluck (fun k => k.sig == s.sig) ks with
      | some (k, ks') =>
          let r := matchSpecs ss ks'
          (r.1, k :: r.2.1, r.2.2)
      | none =>
          let r := matchSpecs ss ks
          (s :: r.1, r.2.1, r.2.2)

/-- Modelled from the spec: the declarative diff, a mapping (modelled as an
association list) from "add" and "del" to nonempty key lists; an empty
list is omitted entirely rather than bound to an empty entry. -/
def key_diff (b : KeyBundle) (key_defs : List KeySpec) (seed : Nat := 0) :
    List (String × List Key) :=
  let r := matchSpecs key_defs (b.get "" true)
  let adds := genKeys r.1 seed
  (if adds.isEmpty then [] else [("add", adds)])
    ++ (if r.2.2.isEmpty then [] else [("del", r.2.2)])

/-- Look an entry up in a diff mapping, defaulting to the empty list. -/
def lookupD (d : List (String × List Key)) (f : String) : List Key :=
  match d.find? (fun e => e.1 == f) with
  | some e => e.2
  | none => []

/-- Modelled from the spec: update_key_bundle applies a diff to a bundle:
"del" entries are marked inactive in place (never removed, so they remain
queryable with only_active set to false) and "add" entries are appended as
freshly generated active keys. -/
def update_key_bundle (now : Nat) (b : KeyBundle)
    (diff : List (String × List Key)) : KeyBundle :=
  let dels := lookupD diff "del"
  let adds := lookupD diff "add"
  { b with
      keys := (b.keys.map (fun k =>
        if k ∈ dels then Key.markInactive now k else k)) ++ adds,
      last_updated := now }

/-- Modelled from the spec: key_rollover derives a new bundle matching the
same key specs as the active keys of the input but with entirely fresh key
material, and the new bundle additionally carries the keys of the original
bundle marked inactive.  The original bundle value is not touched (the
function is pure and only builds a new bundle). -/
def key_rollover (now seed : Nat) (b : KeyBundle) : KeyBundle :=
  let specs := (b.get "" true).map specOfKey
  let nb := build_key_bundle specs seed
  { nb with keys := nb.keys ++ b.keys.map (Key.markInactive now) }

/-- Modelled from the spec: the USE table of the jwk package (the package
init module is not part of the available source): it maps each recognized
usage name to its required category, sign and verify to sig, encrypt and
decrypt to enc, and is undefined on every other name. -/
def USE (usage : String) : Option String :=
  if usage == "sign" then some "sig"
  else if usage == "verify" then some "sig"
  else if usage == "encrypt" then some "enc"
  else if usage == "decrypt" then some "enc"
  else none

/-- Embedded from src/src/cryptojwt/jwk/asym.py: the AsymmetricKey state,
with the use facet (empty when unset) and the optional public and private
key material (abstracted to numbers). -/
structure AsymmetricKey where
  kty : String := "oct"
  alg : String := ""
  use : String := ""
  kid : String := ""
  k : String := ""
  pub_key : Option Nat := none
  priv_key : Option Nat := none
deriving DecidableEq, Repr

/-- Failure modes of get_key_for_usage: valueError stands for the
ValueError raised on an unknown key usage, wrongUsage for the WrongUsage
exception. -/
inductive KeyUsageError where
  | valueError
  | wrongUsage
deriving DecidableEq, Repr

/-- Embedded from src/src/cryptojwt/jwk/asym.py, AsymmetricKey
get_key_for_usage: an unrecognized usage name raises ValueError; for sign
and decrypt the private key is returned when the declared use facet is
unset or equal to the usage category and private material is present,
otherwise WrongUsage is raised; for verify and encrypt the same with the
public key. -/
def AsymmetricKey.get_key_for_usage (key : AsymmetricKey) (usage : String) :
    Except KeyUsageError Nat :=
  match USE usage with
  | none => Except.error KeyUsageError.valueError
  | some u =>
      if usage == "sign" || usage == "decrypt" then
        if key.use == "" || u == key.use then
          match key.priv_key with
          | some p => Except.ok p
          | none => Except.error KeyUsageError.wrongUsage
        else Except.error KeyUsageError.wrongUsage
      else
        if key.use == "" || u == key.use then
          match key.pub_key with
          | some p => Except.ok p
          | none => Except.error KeyUsageError.wrongUsage
        else Except.error KeyUsageError.wrongUsage

/-- Embedded from src/src/cryptojwt/jwk/asym.py: has_private_key. -/
def AsymmetricKey.has_private_key (key : AsymmetricKey) : Bool :=
  key.priv_key.isSome

/-- Embedded from src/src/cryptojwt/jwk/asym.py: public_key. -/
def AsymmetricKey.public_key (key : AsymmetricKey) : Option Nat :=
  key.pub_key

/-- Embedded from src/src/cryptojwt/jwk/asym.py: private_key. -/
def AsymmetricKey.private_key (key : AsymmetricKey) : Option Nat :=
  key.priv_key

/-! Concrete example values used by witnesses and counterexamples, mirroring
the fixtures of the test suite. -/

/-- Example symmetric key (use sig), as in the two-symmetric-key tests. -/
def octKeyEx : Key :=
  { kty := "oct", use := "sig", kid := "octkid", material := 11 }

/-- Example RSA key, as in the jwks fixtures. -/
def rsaKeyEx : Key :=
  { kty := "RSA", use := "sig", kid := "rsakid", size := 1024,
    material := 12 }

/-- Example bundle holding one symmetric and one RSA key. -/
def octRsaBundle : KeyBundle :=
  { keys := [octKeyEx, rsaKeyEx] }

/-- Example remote-sourced bundle with keys already held. -/
def remoteBundleEx : KeyBundle :=
  { keys := [octKeyEx, rsaKeyEx],
    source := some "https://example.com/keys.json",
    remote := true, time_out := 10,
    httpc_params := [("timeout", 2)] }

/-- Example OKP descriptor, an unrecognized type tag, as in the
ignore-unknown-types test. -/
def okpDescEx : Descriptor :=
  { kty := "OKP", use := "sig", kid := "okpkid", crv := "Ed25519",
    material := 77 }

/-- Example RSA signing spec, as in the KEYSPEC fixture. -/
def specRsaEx : KeySpec :=
  { type := "RSA", use := "sig" }

/-- Example EC P-256 signing spec, as in the KEYSPEC fixture. -/
def specEc256Ex : KeySpec :=
  { type := "EC", crv := "P-256", use := "sig" }

/-- Example EC P-384 signing spec, as in the KEYSPEC fixtures. -/
def specEc384Ex : KeySpec :=
  { type := "EC", crv := "P-384", use := "sig" }

/-! Helper lemmas. -/

theorem buildKey_active {d : Descriptor} {k : Key} (h : buildKey d = some k) :
    k.inactive_since = none := by
  unfold buildKey at h
  split at h
  · cases h; rfl
  · cases h

theorem length_filterMap_buildKey (l : List Descriptor) :
    (l.filterMap buildKey).length
      = (l.filter (fun d => recognizedKty d.kty)).length := by
  induction l with
  | nil => rfl
  | cons d l ih =>
      cases h : recognizedKty d.kty with
      | true => simp [List.filterMap_cons, List.filter_cons, buildKey, h, ih]
      | false => simp [List.filterMap_cons, List.filter_cons, buildKey, h, ih]

theorem get_default_eq (b : KeyBundle) :
    b.get "" true = b.keys.filter Key.isActive := by
  unfold KeyBundle.get typeMatch
  simp

theorem get_all_eq (b : KeyBundle) : b.get "" false = b.keys := by
  unfold KeyBundle.get typeMatch
  simp

/-! Claim theorems. -/

/-- Claim C9: every ingested descriptor whose type tag is not recognized by
the key-type registry is silently skipped, so the bundle length equals the
count of entries with a recognized tag; a list containing only an OKP
descriptor yields a bundle of length zero. -/
theorem C9_unknown_types_skipped :
    (∀ descs : List Descriptor,
      (KeyBundle.ofDescs descs).keys.length
        = (descs.filter (fun d => recognizedKty d.kty)).length)
    ∧ (KeyBundle.ofDescs [okpDescEx]).keys.length = 0 := by
  constructor
  · intro descs
    have h : (KeyBundle.ofDescs descs).keys = descs.filterMap buildKey := by
      simp [KeyBundle.ofDescs, do_keys]
    rw [h, length_filterMap_buildKey]
  · decide

/-- Claim C10: looking a key up by a kid held by no key of the bundle
returns none rather than raising an error. -/
theorem C10_get_key_with_kid_miss (b : KeyBundle) (kid : String)
    (h : ∀ k ∈ b.keys, k.kid ≠ kid) :
    b.get_key_with_kid kid = none := by
  unfold KeyBundle.get_key_with_kid
  rw [List.find?_eq_none]
  intro k hk
  simpa using h k hk

/-- Witness for C10 at a concrete bundle and kid. -/
theorem C10_witness : octRsaBundle.get_key_with_kid "kid" = none :=
  C10_get_key_with_kid_miss octRsaBundle "kid" (by decide)

/-- Claim C5: when the conditional fetch performed by update on a
remote-sourced bundle with an expired cache fails at transport level, or
its body fails to parse, the bundle is returned completely unchanged (in
particular the key set, count and partition included) and the failure is
reported as the boolean false; the update function is total, so the
failure is never raised. -/
theorem C5_remote_failure_preserves (now : Nat) (b : KeyBundle)
    (resp : FetchResult) (u : String)
    (hs : b.source = some u) (hr : b.remote = true) (ht : b.time_out ≤ now)
    (hf : resp = FetchResult.failure
      ∨ ∃ v h, resp = FetchResult.fresh v h none) :
    KeyBundle.update now b resp = (b, false) := by
  unfold KeyBundle.update
  rw [hs]
  simp only [hr, if_true, ht, if_pos]
  rcases hf with h | ⟨v, hh, h⟩ <;> subst h <;> simp [do_remote]

/-- Witness for C5 at a concrete remote bundle and a transport failure. -/
theorem C5_witness :
    KeyBundle.update 10 remoteBundleEx FetchResult.failure
      = (remoteBundleEx, false) :=
  C5_remote_failure_preserves 10 remoteBundleEx FetchResult.failure
    "https://example.com/keys.json" rfl rfl (by decide) (Or.inl rfl)

/-- Claim C7 counterexample: a bundle carrying a source locator dumps a
mapping whose field set also holds the source field, so the field set is
not exactly the eleven fields of the claim. -/
theorem C7_counterexample :
    ¬ (((KeyBundle.dump remoteBundleEx).map Prod.fst).all
        (fun f => f ∈ (["cache_time", "fileformat", "httpc_params",
          "imp_jwks", "keys", "last_updated", "last_remote", "last_local",
          "remote", "local", "time_out"] : List String)) = true) := by
  decide

/-- Claim C7 as amended: dump produces a mapping whose field list is the
eleven schema fields, followed by the source field exactly when the bundle
has a source locator; the keys field carries every key whole, its
inactive_since included; and load applied to the dump of any bundle on a
fresh bundle reconstructs that bundle exactly, with no fetching. -/
theorem C7_dump_load_roundtrip (b : KeyBundle) :
    ((KeyBundle.dump b).map Prod.fst
      = ["cache_time", "fileformat", "httpc_params", "imp_jwks", "keys",
         "last_updated", "last_remote", "last_local", "remote", "local",
         "time_out"]
        ++ (match b.source with | some _ => ["source"] | none => []))
    ∧ lookupVal (KeyBundle.dump b) "keys" = some (DumpVal.keyList b.keys)
    ∧ KeyBundle.load {} (KeyBundle.dump b) = b := by
  obtain ⟨ks, src, rem, loc, ff, ct, tw, lu, lr, ll, ij, hp⟩ := b
  cases src <;> exact ⟨rfl, rfl, rfl⟩

/-- Claim C4 counterexample: on a bundle holding one symmetric and one RSA
key, jwks with default arguments does not return only the RSA key: the
symmetric key is rendered as well (the symmetric exclusion belongs to the
dump_jwks module function, not to the jwks method). -/
theorem C4_counterexample :
    ¬ (∀ j ∈ KeyBundle.jwks octRsaBundle false, j.kty = "RSA") := by
  decide

/-- Claim C4 as amended: jwks renders exactly the active keys of the
bundle, symmetric keys included, and excludes private fields unless
explicitly requested; the symmetric exclusion is performed by the
dump_jwks module function, which by default renders no oct key and renders
them only when symmetric export is explicitly requested; on a bundle
holding one symmetric and one RSA key, dump_jwks renders only the RSA key
by default and both keys when symmetric export is requested. -/
theorem C4_jwks_renders_active (priv : Bool) (b : KeyBundle) :
    ((KeyBundle.jwks b priv).length = b.active_keys.length
      ∧ ∀ j ∈ KeyBundle.jwks b priv, ∃ k ∈ b.keys,
          k.isActive = true ∧ j = serializeKey priv k)
    ∧ (∀ j ∈ KeyBundle.jwks b false, j.priv = false)
    ∧ (∀ j ∈ dump_jwks [b] false false, j.kty ≠ "oct")
    ∧ (dump_jwks [octRsaBundle] false false).map SerJWK.kty = ["RSA"]
    ∧ (dump_jwks [octRsaBundle] false true).map SerJWK.kty
        = ["oct", "RSA"] := by
  refine ⟨⟨?_, ?_⟩, ?_, ?_, ?_, ?_⟩
  · simp [KeyBundle.jwks]
  · intro j hj
    unfold KeyBundle.jwks KeyBundle.active_keys at hj
    obtain ⟨k, hk, hkj⟩ := List.mem_map.mp hj
    obtain ⟨hkm, hka⟩ := List.mem_filter.mp hk
    exact ⟨k, hkm, hka, hkj.symm⟩
  · intro j hj
    unfold KeyBundle.jwks at hj
    obtain ⟨k, _, hkj⟩ := List.mem_map.mp hj
    rw [← hkj]
    simp [serializeKey]
  · intro j hj
    unfold dump_jwks at hj
    simp only [List.flatMap_cons, List.flatMap_nil, List.append_nil,
      if_neg Bool.false_ne_true] at hj
    obtain ⟨k, hk, hkj⟩ := List.mem_map.mp hj
    obtain ⟨_, hkty⟩ := List.mem_filter.mp hk
    rw [← hkj]
    simpa [serializeKey] using hkty
  · decide
  · decide

/-- Witness for C4 at a concrete bundle: the rendered document of the
bundle holding one symmetric and one RSA key has two entries. -/
theorem C4_witness : (KeyBundle.jwks octRsaBundle false).length = 2 := by
  have h := (C4_jwks_renders_active false octRsaBundle).1.1
  rw [h]
  decide

theorem USE_eq_none_iff (usage : String) :
    USE usage = none
      ↔ usage ∉ (["sign", "verify", "encrypt", "decrypt"] : List String) := by
  constructor
  · intro hn hmem
    fin_cases hmem <;> simp [USE] at hn
  · intro hmem
    simp only [List.mem_cons, List.not_mem_nil, or_false, not_or] at hmem
    obtain ⟨h1, h2, h3, h4⟩ := hmem
    simp [USE, h1, h2, h3, h4]

/-- Claim C6: get_key_for_usage raises the invalid-usage error exactly when
the usage is not one of sign, verify, encrypt, decrypt; for sign and
decrypt it returns the private material, and for verify and encrypt the
public material, provided the declared use facet is unset or equal to the
usage category and the required material is present, and raises the
wrong-usage error otherwise; in particular a key with use enc refuses a
sign request even when private material is present. -/
theorem C6_get_key_for_usage (key : AsymmetricKey) (usage : String) :
    (key.get_key_for_usage usage = Except.error KeyUsageError.valueError
      ↔ usage ∉ (["sign", "verify", "encrypt", "decrypt"] : List String))
    ∧ ((usage = "sign" ∨ usage = "decrypt") →
        key.get_key_for_usage usage =
          if key.use = "" ∨ USE usage = some key.use then
            match key.priv_key with
            | some p => Except.ok p
            | none => Except.error KeyUsageError.wrongUsage
          else Except.error KeyUsageError.wrongUsage)
    ∧ ((usage = "verify" ∨ usage = "encrypt") →
        key.get_key_for_usage usage =
          if key.use = "" ∨ USE usage = some key.use then
            match key.pub_key with
            | some p => Except.ok p
            | none => Except.error KeyUsageError.wrongUsage
          else Except.error KeyUsageError.wrongUsage)
    ∧ AsymmetricKey.get_key_for_usage
        { use := "enc", pub_key := some 3, priv_key := some 7 } "sign"
      = Except.error KeyUsageError.wrongUsage := by
  refine ⟨?_, ?_, ?_, rfl⟩
  · constructor
    · intro hres hmem
      have hsome : (USE usage).isSome = true := by
        fin_cases hmem <;> rfl
      obtain ⟨u, hu⟩ := Option.isSome_iff_exists.mp hsome
      unfold AsymmetricKey.get_key_for_usage at hres
      rw [hu] at hres
      repeat' split at hres
      all_goals simp_all
    · intro hmem
      have hn := (USE_eq_none_iff usage).mpr hmem
      unfold AsymmetricKey.get_key_for_usage
      rw [hn]
  · rintro (rfl | rfl)
    · by_cases hc : key.use = ""
      · cases hpk : key.priv_key <;>
          simp [AsymmetricKey.get_key_for_usage, USE, hc, hpk]
      · by_cases hd : key.use = "sig"
        · cases hpk : key.priv_key <;>
            simp [AsymmetricKey.get_key_for_usage, USE, hc, hd, hpk]
        · simp [AsymmetricKey.get_key_for_usage, USE, hc, hd, Ne.symm hd]
    · by_cases hc : key.use = ""
      · cases hpk : key.priv_key <;>
          simp [AsymmetricKey.get_key_for_usage, USE, hc, hpk]
      · by_cases hd : key.use = "enc"
        · cases hpk : key.priv_key <;>
            simp [AsymmetricKey.get_key_for_usage, USE, hc, hd, hpk]
        · simp [AsymmetricKey.get_key_for_usage, USE, hc, hd, Ne.symm hd]
  · rintro (rfl | rfl)
    · by_cases hc : key.use = ""
      · cases hpk : key.pub_key <;>
          simp [AsymmetricKey.get_key_for_usage, USE, hc, hpk]
      · by_cases hd : key.use = "sig"
        · cases hpk : key.pub_key <;>
            simp [AsymmetricKey.get_key_for_usage, USE, hc, hd, hpk]
        · simp [AsymmetricKey.get_key_for_usage, USE, hc, hd, Ne.symm hd]
    · by_cases hc : key.use = ""
      · cases hpk : key.pub_key <;>
          simp [AsymmetricKey.get_key_for_usage, USE, hc, hpk]
      · by_cases hd : key.use = "enc"
        · cases hpk : key.pub_key <;>
            simp [AsymmetricKey.get_key_for_usage, USE, hc, hd, hpk]
        · simp [AsymmetricKey.get_key_for_usage, USE, hc, hd, Ne.symm hd]

/-- Witness for C6: a key scoped to no use facet resolves a sign request to
its private material. -/
theorem C6_witness :
    AsymmetricKey.get_key_for_usage
      { use := "", pub_key := some 3, priv_key := some 5 } "sign"
      = Except.ok 5 := by
  have h := (C6_get_key_for_usage
    { use := "", pub_key := some 3, priv_key := some 5 } "sign").2.1
    (Or.inl rfl)
  simpa using h

theorem mergeOne_matched (now : Nat) (inc : List Key) (k : Key)
    (h : inc.any (fun j => sameKey k j) = true) :
    mergeOne now inc k = k := by
  unfold mergeOne
  rw [if_pos h]

theorem mergeOne_unmatched_active (now : Nat) (inc : List Key) (k : Key)
    (ha : k.inactive_since = none)
    (h : inc.any (fun j => sameKey k j) = false) :
    mergeOne now inc k = Key.markInactive now k := by
  unfold mergeOne
  rw [if_neg (by simp [h]), if_pos (by simp [ha])]

theorem mergeOne_unmatched_inactive (now : Nat) (inc : List Key) (k : Key)
    (t : Nat) (ha : k.inactive_since = some t)
    (h : inc.any (fun j => sameKey k j) = false) :
    mergeOne now inc k = k := by
  unfold mergeOne
  rw [if_neg (by simp [h]), if_neg (by simp [ha])]

/-- Claim C1: the merge step never deletes a held key: a current key whose
material equals an incoming entry of the same type stays untouched (in
particular an active one stays active); a previously active key matching
no incoming entry is flipped to inactive with inactive_since set to the
current time but remains in the result; an incoming entry matching no held
key is appended as a new active key; every held key survives, possibly
inactivated, so the merge never shrinks the list; and on the merged bundle
the partition reported by get is a function of inactive_since alone (the
all-keys query returns everything, the default query exactly the keys with
no inactive_since). -/
theorem C1_merge_never_deletes (now : Nat) (ks : List Key)
    (descs : List Descriptor) :
    (∀ k ∈ ks, k.inactive_since = none →
        (descs.filterMap buildKey).any (fun j => sameKey k j) = true →
        k ∈ do_keys now ks descs)
    ∧ (∀ k ∈ ks, k.inactive_since = none →
        (descs.filterMap buildKey).any (fun j => sameKey k j) = false →
        Key.markInactive now k ∈ do_keys now ks descs)
    ∧ (∀ j ∈ descs.filterMap buildKey,
        ks.any (fun k => sameKey k j) = false →
        j ∈ do_keys now ks descs ∧ j.inactive_since = none)
    ∧ (∀ k ∈ ks, k ∈ do_keys now ks descs
        ∨ Key.markInactive now k ∈ do_keys now ks descs)
    ∧ ks.length ≤ (do_keys now ks descs).length
    ∧ KeyBundle.get { keys := do_keys now ks descs } "" true
        = (do_keys now ks descs).filter Key.isActive
    ∧ KeyBundle.get { keys := do_keys now ks descs } "" false
        = do_keys now ks descs := by
  refine ⟨?_, ?_, ?_, ?_, ?_, get_default_eq _, get_all_eq _⟩
  · intro k hk _ hmatch
    refine List.mem_append_left _ ?_
    have hm := List.mem_map_of_mem (mergeOne now (descs.filterMap buildKey)) hk
    rwa [mergeOne_matched now _ k hmatch] at hm
  · intro k hk hact hmatch
    refine List.mem_append_left _ ?_
    have hm := List.mem_map_of_mem (mergeOne now (descs.filterMap buildKey)) hk
    rwa [mergeOne_unmatched_active now _ k hact hmatch] at hm
  · intro j hj hno
    constructor
    · refine List.mem_append_right _ ?_
      exact List.mem_filter.mpr ⟨hj, by simp [hno]⟩
    · obtain ⟨d, _, hbd⟩ := List.mem_filterMap.mp hj
      exact buildKey_active hbd
  · intro k hk
    have hm := List.mem_map_of_mem (mergeOne now (descs.filterMap buildKey)) hk
    cases hmatch : (descs.filterMap buildKey).any (fun j => sameKey k j) with
    | true =>
        left
        refine List.mem_append_left _ ?_
        rwa [mergeOne_matched now _ k hmatch] at hm
    | false =>
        cases hia : k.inactive_since with
        | none =>
            right
            refine List.mem_append_left _ ?_
            rwa [mergeOne_unmatched_active now _ k hia hmatch] at hm
        | some t =>
            left
            refine List.mem_append_left _ ?_
            rwa [mergeOne_unmatched_inactive now _ k t hia hmatch] at hm
  · simp only [do_keys, List.length_append, List.length_map]
    exact Nat.le_add_right _ _

/-- Witness for C1: merging an empty incoming list into a bundle holding
one active key flips that key to inactive while keeping it in the list. -/
theorem C1_witness :
    Key.markInactive 7 octKeyEx ∈ do_keys 7 [octKeyEx] [] :=
  (C1_merge_never_deletes 7 [octKeyEx] []).2.1 octKeyEx
    (List.mem_singleton.mpr rfl) rfl rfl

theorem pluck_some {p : Key → Bool} {ks rest : List Key} {k : Key}
    (h : pluck p ks = some (k, rest)) :
    p k = true ∧ ks.Perm (k :: rest) := by
  induction ks generalizing rest with
  | nil => simp [pluck] at h
  | cons a as ih =>
      by_cases ha : p a
      · rw [pluck, if_pos ha] at h
        obtain ⟨rfl, rfl⟩ := Prod.mk.injEq .. ▸ Option.some.injEq .. ▸ h
        exact ⟨ha, List.Perm.refl _⟩
      · rw [pluck, if_neg ha] at h
        obtain ⟨⟨k', rest'⟩, hr, heq⟩ := Option.map_eq_some'.mp h
        obtain ⟨rfl, rfl⟩ := Prod.mk.injEq .. ▸ heq
        obtain ⟨hp, hperm⟩ := ih hr
        exact ⟨hp, ((hperm.cons a).trans (List.Perm.swap _ _ _))⟩

theorem pluck_none {p : Key → Bool} {ks : List Key}
    (h : pluck p ks = none) : ∀ k ∈ ks, p k = false := by
  induction ks with
  | nil => simp
  | cons a as ih =>
      by_cases ha : p a
      · rw [pluck, if_pos ha] at h
        cases h
      · rw [pluck, if_neg ha] at h
        intro k hk
        rcases List.mem_cons.mp hk with rfl | hk'
        · exact Bool.eq_false_iff.mpr ha
        · exact ih (Option.map_eq_none'.mp h) k hk'

theorem matchSpecs_perm (specs : List KeySpec) (ks : List Key) :
    ks.Perm ((matchSpecs specs ks).2.1 ++ (matchSpecs specs ks).2.2) := by
  induction specs generalizing ks with
  | nil => simp [matchSpecs]
  | cons s ss ih =>
      cases hp : pluck (fun k => k.sig == s.sig) ks with
      | none => simpa [matchSpecs, hp] using ih ks
      | some r =>
          obtain ⟨k, rest⟩ := r
          have hperm := (pluck_some hp).2
          simp only [matchSpecs, hp]
          exact hperm.trans ((ih rest).cons k)

theorem matchSpecs_sigs (specs : List KeySpec) (ks : List Key) :
    (specs.map KeySpec.sig).Perm
      ((matchSpecs specs ks).1.map KeySpec.sig
        ++ (matchSpecs specs ks).2.1.map Key.sig) := by
  induction specs generalizing ks with
  | nil => simp [matchSpecs]
  | cons s ss ih =>
      cases hp : pluck (fun k => k.sig == s.sig) ks with
      | none =>
          simp only [matchSpecs, hp, List.map_cons, List.cons_append]
          exact (ih ks).cons _
      | some r =>
          obtain ⟨k, rest⟩ := r
          have hsig : Key.sig k = KeySpec.sig s := by
            simpa using (pluck_some hp).1
          simp only [matchSpecs, hp, List.map_cons]
          refine ((ih rest).cons s.sig).trans ?_
          rw [hsig]
          exact List.perm_middle.symm

theorem matchSpecs_exact (specs : List KeySpec) (ks : List Key)
    (h : (specs.map KeySpec.sig).Perm (ks.map Key.sig)) :
    (matchSpecs specs ks).1 = [] ∧ (matchSpecs specs ks).2.2 = [] := by
  induction specs generalizing ks with
  | nil =>
      have : ks.map Key.sig = [] := (h.symm).eq_nil
      have hks : ks = [] := List.map_eq_nil_iff.mp this
      subst hks
      exact ⟨rfl, rfl⟩
  | cons s ss ih =>
      have hmem : KeySpec.sig s ∈ ks.map Key.sig :=
        h.mem_iff.mp (List.mem_cons_self _ _)
      obtain ⟨k0, hk0, hsk⟩ := List.mem_map.mp hmem
      cases hp : pluck (fun k => k.sig == s.sig) ks with
      | none =>
          have hf := pluck_none hp k0 hk0
          rw [show (Key.sig k0 == KeySpec.sig s) = true by simp [hsk]] at hf
          cases hf
      | some r =>
          obtain ⟨k, rest⟩ := r
          obtain ⟨hps, hperm⟩ := pluck_some hp
          have hksig : Key.sig k = KeySpec.sig s := by simpa using hps
          have h2 : (ss.map KeySpec.sig).Perm (rest.map Key.sig) := by
            have hmap : (ks.map Key.sig).Perm
                (KeySpec.sig s :: rest.map Key.sig) := by
              have hm := hperm.map Key.sig
              rwa [List.map_cons, hksig] at hm
            exact (h.trans hmap).cons_inv
          obtain ⟨h3, h4⟩ := ih rest h2
          simp [matchSpecs, hp, h3, h4]

theorem genKeys_sigs (specs : List KeySpec) (seed : Nat) :
    (genKeys specs seed).map Key.sig = specs.map KeySpec.sig := by
  induction specs generalizing seed with
  | nil => rfl
  | cons s ss ih => simp [genKeys, key_gen, Key.sig, KeySpec.sig, ih]

theorem genKeys_active (specs : List KeySpec) (seed : Nat) :
    ∀ k ∈ genKeys specs seed, k.inactive_since = none := by
  induction specs generalizing seed with
  | nil => simp [genKeys]
  | cons s ss ih =>
      intro k hk
      rcases List.mem_cons.mp hk with rfl | hk'
      · rfl
      · exact ih (seed + 1) k hk'

theorem genKeys_length (specs : List KeySpec) (seed : Nat) :
    (genKeys specs seed).length = specs.length := by
  induction specs generalizing seed with
  | nil => rfl
  | cons s ss ih => simp [genKeys, ih]

theorem genKeys_material_ge (specs : List KeySpec) (seed : Nat) :
    ∀ k ∈ genKeys specs seed, seed ≤ k.material := by
  induction specs generalizing seed with
  | nil => simp [genKeys]
  | cons s ss ih =>
      intro k hk
      rcases List.mem_cons.mp hk with rfl | hk'
      · exact Nat.le_refl _
      · exact Nat.le_trans (Nat.le_succ _) (ih (seed + 1) k hk')

theorem key_diff_parts (b : KeyBundle) (specs : List KeySpec) (seed : Nat) :
    lookupD (key_diff b specs seed) "add"
        = genKeys (matchSpecs specs (b.get "" true)).1 seed
    ∧ lookupD (key_diff b specs seed) "del"
        = (matchSpecs specs (b.get "" true)).2.2 := by
  unfold key_diff lookupD
  cases ha : (genKeys (matchSpecs specs (b.get "" true)).1 seed).isEmpty <;>
    cases hl : (matchSpecs specs (b.get "" true)).2.2.isEmpty <;>
    simp_all [List.isEmpty_iff, List.find?]

/-- Claim C8: key_diff groups only the active keys of the bundle (the
inactive keys are invisible to it), matches specification entries against
active keys by grouping signature one key per entry, schedules an add for
each unmatched entry and a del for each leftover active key (so that the
active signatures plus the added signatures form the same multiset as the
specification signatures plus the deleted signatures), returns a mapping
holding no entry for an empty list, and returns the empty mapping when the
bundle already matches the specification. -/
theorem C8_key_diff (b : KeyBundle) (specs : List KeySpec) (seed : Nat) :
    (∀ e ∈ key_diff b specs seed, (e.1 = "add" ∨ e.1 = "del") ∧ e.2 ≠ [])
    ∧ (∀ k ∈ lookupD (key_diff b specs seed) "del", k ∈ b.get "" true)
    ∧ ((b.get "" true).map Key.sig
        ++ (lookupD (key_diff b specs seed) "add").map Key.sig).Perm
       (specs.map KeySpec.sig
        ++ (lookupD (key_diff b specs seed) "del").map Key.sig)
    ∧ ((specs.map KeySpec.sig).Perm ((b.get "" true).map Key.sig)
        → key_diff b specs seed = [])
    ∧ key_diff b specs seed
        = key_diff { b with keys := b.keys.filter Key.isActive } specs
            seed := by
  have hparts := key_diff_parts b specs seed
  refine ⟨?_, ?_, ?_, ?_, ?_⟩
  · intro e he
    unfold key_diff at he
    rcases List.mem_append.mp he with h | h
    · cases ha : (genKeys (matchSpecs specs (b.get "" true)).1 seed).isEmpty
      · rw [ha] at h
        simp only [if_neg Bool.false_ne_true, List.mem_singleton] at h
        subst h
        refine ⟨Or.inl rfl, ?_⟩
        simpa [List.isEmpty_iff] using ha
      · rw [ha] at h
        simp at h
    · cases hl : (matchSpecs specs (b.get "" true)).2.2.isEmpty
      · rw [hl] at h
        simp only [if_neg Bool.false_ne_true, List.mem_singleton] at h
        subst h
        refine ⟨Or.inr rfl, ?_⟩
        simpa [List.isEmpty_iff] using hl
      · rw [hl] at h
        simp at h
  · intro k hk
    rw [hparts.2] at hk
    exact (matchSpecs_perm specs (b.get "" true)).mem_iff.mpr
      (List.mem_append_right _ hk)
  · rw [hparts.1, hparts.2, genKeys_sigs]
    have h1 : ((b.get "" true).map Key.sig).Perm
        (((matchSpecs specs (b.get "" true)).2.1.map Key.sig)
          ++ ((matchSpecs specs (b.get "" true)).2.2.map Key.sig)) := by
      have := (matchSpecs_perm specs (b.get "" true)).map Key.sig
      rwa [List.map_append] at this
    refine ((h1.append_right _).trans ?_).trans
      (((matchSpecs_sigs specs (b.get "" true)).append_right _).symm)
    refine List.Perm.trans List.perm_append_comm ?_
    rw [List.append_assoc]
  · intro h
    obtain ⟨hu, hl⟩ := matchSpecs_exact specs (b.get "" true) h
    simp [key_diff, hu, hl, genKeys]
  · have hget : ({ b with keys := b.keys.filter Key.isActive }
        : KeyBundle).get "" true = b.get "" true := by
      rw [get_default_eq, get_default_eq]
      simp [List.filter_filter]
    unfold key_diff
    rw [hget]

/-- Witness for C8: the diff of a freshly built bundle against its own
specification is empty. -/
theorem C8_witness :
    key_diff (build_key_bundle [specRsaEx, specEc256Ex] 0)
      [specRsaEx, specEc256Ex] 5 = [] := by
  have h := (C8_key_diff (build_key_bundle [specRsaEx, specEc256Ex] 0)
    [specRsaEx, specEc256Ex] 5).2.2.2.1
  exact h (by decide)

/-- Claim C2: applying update_key_bundle to the diff computed by key_diff
makes the multiset of grouping signatures of the active keys of the bundle
exactly the multiset of signatures of the specification; every key of the
bundle survives the update, possibly flipped to inactive (so no key is
ever deleted and the key count only grows by the added keys); and the add
entries are appended as freshly generated active keys.  The hypothesis
asks the active keys to be pairwise distinct values: the original code
marks the deleted key objects in place by object identity, which the
value-level model renders as marking by value equality. -/
theorem C2_diff_update_roundtrip (now seed : Nat) (b : KeyBundle)
    (specs : List KeySpec) (hnd : (b.get "" true).Nodup) :
    (((update_key_bundle now b (key_diff b specs seed)).get "" true).map
        Key.sig).Perm (specs.map KeySpec.sig)
    ∧ (∀ k ∈ b.keys,
        k ∈ (update_key_bundle now b (key_diff b specs seed)).keys
        ∨ Key.markInactive now k
            ∈ (update_key_bundle now b (key_diff b specs seed)).keys)
    ∧ (update_key_bundle now b (key_diff b specs seed)).keys.length
        = b.keys.length + (lookupD (key_diff b specs seed) "add").length
    ∧ (∀ k ∈ lookupD (key_diff b specs seed) "add",
        k ∈ (update_key_bundle now b (key_diff b specs seed)).keys
        ∧ k.inactive_since = none) := by
  obtain ⟨hadd, hdel⟩ := key_diff_parts b specs seed
  have hkeys : (update_key_bundle now b (key_diff b specs seed)).keys
      = b.keys.map (fun k =>
          if k ∈ (matchSpecs specs (b.get "" true)).2.2 then
            Key.markInactive now k
          else k)
        ++ genKeys (matchSpecs specs (b.get "" true)).1 seed := by
    simp only [update_key_bundle, hadd, hdel]
  refine ⟨?_, ?_, ?_, ?_⟩
  · -- the signature multiset of the active keys after the update
    rw [get_default_eq, hkeys, List.filter_append]
    have hga : (genKeys (matchSpecs specs (b.get "" true)).1 seed).filter
        Key.isActive = genKeys (matchSpecs specs (b.get "" true)).1 seed :=
      List.filter_eq_self.mpr (fun a ha => by
        simp [Key.isActive, genKeys_active _ _ a ha])
    rw [hga, List.filter_map]
    have hpt : ∀ k ∈ b.keys,
        (Key.isActive ∘ fun k =>
          if k ∈ (matchSpecs specs (b.get "" true)).2.2 then
            Key.markInactive now k
          else k) k
        = (fun k =>
            !(decide (k ∈ (matchSpecs specs (b.get "" true)).2.2))
              && Key.isActive k) k := by
      intro k _
      by_cases hd : k ∈ (matchSpecs specs (b.get "" true)).2.2
      · simp [hd, Key.markInactive, Key.isActive]
      · simp [hd]
    rw [List.filter_congr hpt, ← List.filter_filter, ← get_default_eq]
    have hid : (((b.get "" true).filter (fun k =>
        !(decide (k ∈ (matchSpecs specs (b.get "" true)).2.2)))).map
          (fun k =>
            if k ∈ (matchSpecs specs (b.get "" true)).2.2 then
              Key.markInactive now k
            else k))
        = (b.get "" true).filter (fun k =>
            !(decide (k ∈ (matchSpecs specs (b.get "" true)).2.2))) := by
      rw [List.map_congr_left (g := id) ?_, List.map_id]
      intro a ha
      have := (List.mem_filter.mp ha).2
      simp only [Bool.not_eq_eq_eq_not, Bool.not_true, decide_eq_false_iff_not] at this
      simp [this]
    rw [hid]
    have hperm := matchSpecs_perm specs (b.get "" true)
    have hnd2 := hperm.nodup hnd
    have hfl : ((matchSpecs specs (b.get "" true)).2.2).filter (fun k =>
        !(decide (k ∈ (matchSpecs specs (b.get "" true)).2.2))) = [] :=
      List.filter_eq_nil_iff.mpr (fun a ha => by simp [ha])
    have hfm : ((matchSpecs specs (b.get "" true)).2.1).filter (fun k =>
        !(decide (k ∈ (matchSpecs specs (b.get "" true)).2.2)))
        = (matchSpecs specs (b.get "" true)).2.1 :=
      List.filter_eq_self.mpr (fun a ha => by
        have hdisj := List.disjoint_of_nodup_append hnd2
        simp only [Bool.not_eq_eq_eq_not, Bool.not_true,
          decide_eq_false_iff_not]
        exact hdisj ha)
    have hactive : (((b.get "" true).filter (fun k =>
        !(decide (k ∈ (matchSpecs specs (b.get "" true)).2.2))))
          ++ genKeys (matchSpecs specs (b.get "" true)).1 seed).Perm
        ((matchSpecs specs (b.get "" true)).2.1
          ++ genKeys (matchSpecs specs (b.get "" true)).1 seed) := by
      refine List.Perm.append_right _ ?_
      have := hperm.filter (fun k =>
        !(decide (k ∈ (matchSpecs specs (b.get "" true)).2.2)))
      rwa [List.filter_append, hfl, hfm, List.append_nil] at this
    refine (hactive.map Key.sig).trans ?_
    rw [List.map_append, genKeys_sigs]
    refine List.Perm.trans List.perm_append_comm ?_
    exact (matchSpecs_sigs specs (b.get "" true)).symm
  · intro k hk
    rw [hkeys]
    by_cases hd : k ∈ (matchSpecs specs (b.get "" true)).2.2
    · right
      refine List.mem_append_left _ ?_
      have hm := List.mem_map_of_mem (fun k =>
        if k ∈ (matchSpecs specs (b.get "" true)).2.2 then
          Key.markInactive now k
        else k) hk
      simpa [hd] using hm
    · left
      refine List.mem_append_left _ ?_
      have hm := List.mem_map_of_mem (fun k =>
        if k ∈ (matchSpecs specs (b.get "" true)).2.2 then
          Key.markInactive now k
        else k) hk
      simpa [hd] using hm
  · rw [hkeys, hadd, List.length_append, List.length_map]
  · intro k hk
    rw [hadd] at hk
    constructor
    · rw [hkeys]
      exact List.mem_append_right _ hk
    · exact genKeys_active _ _ k hk

/-- Witness for C2: updating a freshly built RSA plus P-256 bundle with its
diff against a P-256 plus P-384 specification yields active keys whose
signature multiset is exactly that of the new specification. -/
theorem C2_witness :
    ((((update_key_bundle 50 (build_key_bundle [specRsaEx, specEc256Ex] 0)
        (key_diff (build_key_bundle [specRsaEx, specEc256Ex] 0)
          [specEc256Ex, specEc384Ex] 20)).get "" true).map
        Key.sig).Perm ([specEc256Ex, specEc384Ex].map KeySpec.sig)) :=
  (C2_diff_update_roundtrip 50 20 (build_key_bundle [specRsaEx, specEc256Ex] 0)
    [specEc256Ex, specEc384Ex] (by decide)).1

/-- Claim C3: key_rollover returns a new bundle holding exactly as many
active keys as the input has, matching the same key specs (the signature
lists coincide) but of entirely fresh material (no rolled key shares
material with any original key, given fresh seeds), and additionally
carrying every key of the original bundle marked inactive; when all the
original keys are active, the all-keys query on the new bundle accounts
for twice the original active count.  The input bundle value is not
touched: the function is pure and the original bundle is left as it is. -/
theorem C3_key_rollover (now seed : Nat) (b : KeyBundle) :
    ((key_rollover now seed b).get "" true).length = (b.get "" true).length
    ∧ ((key_rollover now seed b).get "" true).map Key.sig
        = (b.get "" true).map Key.sig
    ∧ ((∀ k ∈ b.keys, k.material < seed) →
        ∀ j ∈ (key_rollover now seed b).get "" true, ∀ k ∈ b.keys,
          j.material ≠ k.material)
    ∧ (∀ k ∈ b.keys,
        Key.markInactive now k ∈ (key_rollover now seed b).keys)
    ∧ ((∀ k ∈ b.keys, k.isActive = true) →
        ((key_rollover now seed b).get "" false).length
          = 2 * (b.get "" true).length) := by
  have hr : (key_rollover now seed b).keys
      = genKeys ((b.get "" true).map specOfKey) seed
        ++ b.keys.map (Key.markInactive now) := by
    simp only [key_rollover, build_key_bundle]
  have hact : (key_rollover now seed b).get "" true
      = genKeys ((b.get "" true).map specOfKey) seed := by
    rw [get_default_eq, hr, List.filter_append]
    have h1 : (genKeys ((b.get "" true).map specOfKey) seed).filter
        Key.isActive = genKeys ((b.get "" true).map specOfKey) seed :=
      List.filter_eq_self.mpr (fun a ha => by
        simp [Key.isActive, genKeys_active _ _ a ha])
    have h2 : (b.keys.map (Key.markInactive now)).filter Key.isActive
        = [] :=
      List.filter_eq_nil_iff.mpr (fun a ha => by
        obtain ⟨k, _, hk⟩ := List.mem_map.mp ha
        simp [← hk, Key.markInactive, Key.isActive])
    rw [h1, h2, List.append_nil]
  refine ⟨?_, ?_, ?_, ?_, ?_⟩
  · rw [hact, genKeys_length, List.length_map]
  · rw [hact, genKeys_sigs, List.map_map]
    rfl
  · intro hlt j hj k hk
    rw [hact] at hj
    have h1 := genKeys_material_ge _ _ j hj
    have h2 := hlt k hk
    omega
  · intro k hk
    rw [hr]
    exact List.mem_append_right _ (List.mem_map_of_mem _ hk)
  · intro hall
    have hA : b.get "" true = b.keys := by
      rw [get_default_eq]
      exact List.filter_eq_self.mpr hall
    rw [get_all_eq, hr, List.length_append, genKeys_length,
      List.length_map, List.length_map, hA]
    omega

/-- Witness for C3: rolling over a freshly built two-key bundle yields a
bundle of four keys, two of them active. -/
theorem C3_witness :
    ((key_rollover 99 10 (build_key_bundle [specRsaEx, specEc256Ex] 0)).get
      "" false).length = 4 := by
  have h := (C3_key_rollover 99 10
    (build_key_bundle [specRsaEx, specEc256Ex] 0)).2.2.2.2 (by decide)
  rw [h]
  decide

end CryptoJwt
